import Mathlib

set_option maxHeartbeats 1000000
set_option maxRecDepth 4000

namespace SrtBridge

/- Shallow embedding of src/local_translate_srt.py.

   Strings are modelled as lists of characters. The regular expression
   SRT_BLOCK_RE is compiled with the flags (?mx): MULTILINE and VERBOSE but
   not DOTALL, so the dot class matches any character except a newline.
   The matcher below is a direct backtracking implementation of the pattern

     (digits-plus) whitespace-star newline
     (timestamp) whitespace-plus arrow whitespace-plus (timestamp)
     whitespace-star newline
     (lazy dot-star) followed by a zero-width test for blank line or end

   with the same greedy and lazy priorities as the Python engine.
   Character classes are the ASCII parts of the Python classes. -/

abbrev Chars := List Char

/-- Class of the Python regex digit class, ASCII part. -/
def isDigitPy (c : Char) : Bool := c.isDigit

/-- Class of the Python regex whitespace class, ASCII part. -/
def isSpacePy (c : Char) : Bool :=
  c == ' ' || c == '\t' || c == '\n' || c == '\r' || c == '\x0b' || c == '\x0c'

/-- Class of the regex dot without DOTALL: any character except a newline. -/
def dotCls (c : Char) : Bool := !(c == '\n')

/-- Greedy star over a one-character class: consume as much as possible,
    backtracking into the continuation from longest to shortest. -/
def starG (p : Char → Bool) (k : Chars → Option α) : Chars → Option α
  | [] => k []
  | c :: r =>
    if p c then
      match starG p k r with
      | some v => some v
      | none => k (c :: r)
    else k (c :: r)

/-- Greedy plus over a one-character class. -/
def plusG (p : Char → Bool) (k : Chars → Option α) : Chars → Option α
  | [] => none
  | c :: r => if p c then starG p k r else none

/-- Greedy star with capture accumulation; the continuation receives the
    captured characters and the remaining input. -/
def starGCapAux (p : Char → Bool) (acc : Chars) (k : Chars → Chars → Option α) :
    Chars → Option α
  | [] => k acc.reverse []
  | c :: r =>
    if p c then
      match starGCapAux p (c :: acc) k r with
      | some v => some v
      | none => k acc.reverse (c :: r)
    else k acc.reverse (c :: r)

/-- Greedy capturing plus over a one-character class. -/
def plusGCap (p : Char → Bool) (k : Chars → Chars → Option α) : Chars → Option α
  | [] => none
  | c :: r => if p c then starGCapAux p [c] k r else none

/-- Lazy star with capture: try the continuation at the shortest capture
    first, extending one character at a time. -/
def starLCapAux (p : Char → Bool) (acc : Chars) (k : Chars → Chars → Option α) :
    Chars → Option α
  | [] => k acc.reverse []
  | c :: r =>
    match k acc.reverse (c :: r) with
    | some v => some v
    | none => if p c then starLCapAux p (c :: acc) k r else none

/-- Consume one character of a class. -/
def expectCls (p : Char → Bool) : Chars → Option (Char × Chars)
  | [] => none
  | c :: r => if p c then some (c, r) else none

/-- Consume one given character. -/
def expectChar (ch : Char) : Chars → Option Chars
  | [] => none
  | c :: r => if c == ch then some r else none

/-- Consume a newline and continue. -/
def expectNl (k : Chars → Option α) : Chars → Option α
  | [] => none
  | c :: r => if c == '\n' then k r else none

/-- Consume the literal arrow of the timestamp separator and continue. -/
def expectArrow (k : Chars → Option α) : Chars → Option α
  | '-' :: '-' :: '>' :: r => k r
  | _ => none

/-- Zero-width test of the regex: the next characters are a blank line
    separator or the end of the input. -/
def lookaheadNNorEnd : Chars → Bool
  | [] => true
  | c :: r =>
    c == '\n' &&
      match r with
      | c2 :: _ => c2 == '\n'
      | [] => false

/-- Timestamp of the form two digits, colon, two digits, colon, two digits,
    comma, three digits; returns the captured characters and the rest. -/
def matchTimestamp (s : Chars) : Option (Chars × Chars) := do
  let (d1, s1) ← expectCls isDigitPy s
  let (d2, s2) ← expectCls isDigitPy s1
  let s3 ← expectChar ':' s2
  let (d3, s4) ← expectCls isDigitPy s3
  let (d4, s5) ← expectCls isDigitPy s4
  let s6 ← expectChar ':' s5
  let (d5, s7) ← expectCls isDigitPy s6
  let (d6, s8) ← expectCls isDigitPy s7
  let s9 ← expectChar ',' s8
  let (d7, s10) ← expectCls isDigitPy s9
  let (d8, s11) ← expectCls isDigitPy s10
  let (d9, s12) ← expectCls isDigitPy s11
  pure ([d1, d2, ':', d3, d4, ':', d5, d6, ',', d7, d8, d9], s12)

/-- A recognized subtitle block: the four capture groups of SRT_BLOCK_RE. -/
structure SrtBlock where
  idx : Chars
  t1 : Chars
  t2 : Chars
  txt : Chars
deriving Repr, DecidableEq

/-- Final continuation of the pattern: the lazy text capture succeeds at a
    position where the zero-width test holds; the match ends there. -/
def textK (idx t1 t2 : Chars) (txt r11 : Chars) : Option (SrtBlock × Chars) :=
  if lookaheadNNorEnd r11 then some (⟨idx, t1, t2, txt⟩, r11) else none

/-- Lazy dot-star capture of the text group with the zero-width test. -/
def textPart (idx t1 t2 : Chars) (r10 : Chars) : Option (SrtBlock × Chars) :=
  starLCapAux dotCls [] (textK idx t1 t2) r10

/-- After the second timestamp: whitespace-star, newline, then the text. -/
def afterTs2 (idx t1 t2 : Chars) (r8 : Chars) : Option (SrtBlock × Chars) :=
  starG isSpacePy (expectNl (textPart idx t1 t2)) r8

/-- After the arrow: whitespace-plus then the second timestamp. -/
def afterArrow (idx t1 : Chars) (r6 : Chars) : Option (SrtBlock × Chars) :=
  plusG isSpacePy (fun r7 =>
    match matchTimestamp r7 with
    | none => none
    | some (t2, r8) => afterTs2 idx t1 t2 r8) r6

/-- After the first timestamp: whitespace-plus, arrow, and the rest. -/
def afterTs1 (idx t1 : Chars) (r4 : Chars) : Option (SrtBlock × Chars) :=
  plusG isSpacePy (expectArrow (afterArrow idx t1)) r4

/-- After the index line and its newline: the first timestamp and the rest. -/
def afterIdxNl (idx : Chars) (r3 : Chars) : Option (SrtBlock × Chars) :=
  match matchTimestamp r3 with
  | none => none
  | some (t1, r4) => afterTs1 idx t1 r4

/-- After the captured index digits: whitespace-star, newline, and the rest. -/
def afterIdx (idx : Chars) (r1 : Chars) : Option (SrtBlock × Chars) :=
  starG isSpacePy (expectNl (afterIdxNl idx)) r1

/-- Attempt to match SRT_BLOCK_RE at the start of the input; on success
    returns the block and the unconsumed rest of the input. -/
def matchBlockAux (s : Chars) : Option (SrtBlock × Chars) :=
  plusGCap isDigitPy afterIdx s

/-- Attempt to match SRT_BLOCK_RE at the start of the input; on success
    returns the block and the number of characters consumed by the match. -/
def matchBlock (s : Chars) : Option (SrtBlock × Nat) :=
  match matchBlockAux s with
  | some (b, rest) => some (b, s.length - rest.length)
  | none => none

/-- Scanner of finditer: at each position try the pattern; on failure move
    one character into the pending verbatim span, on success emit the span,
    the block and the raw matched characters, and continue after the match.
    Fuel bounds the recursion; it is one more than the input length. -/
def srtPartsAux : Nat → Chars → Chars → List (Chars × SrtBlock × Chars) × Chars
  | 0, acc, s => ([], acc.reverse ++ s)
  | fuel + 1, acc, s =>
    match matchBlock s with
    | some (b, n) =>
      let rec_result := srtPartsAux fuel [] (s.drop n)
      ((acc.reverse, b, s.take n) :: rec_result.1, rec_result.2)
    | none =>
      match s with
      | [] => ([], acc.reverse)
      | c :: rest => srtPartsAux fuel (c :: acc) rest

/-- All matches of SRT_BLOCK_RE in the document, each with the verbatim span
    before it and the raw matched characters, plus the verbatim tail. -/
def srtParts (content : Chars) : List (Chars × SrtBlock × Chars) × Chars :=
  srtPartsAux (content.length + 1) [] content

/-- Reassembled block of translate_srt: index, newline, first timestamp,
    space arrow space, second timestamp, newline, text, blank line. -/
def renderBlock (idx t1 t2 txt : Chars) : Chars :=
  idx ++ ['\n'] ++ t1 ++ [' ', '-', '-', '>', ' '] ++ t2 ++ ['\n'] ++ txt ++ ['\n', '\n']

/- Line translator with retry and sleeps. A backend is a stateful function
   that either returns a translation or fails, modelling one call of the
   translate method of the active TranslatorImpl; a raised exception is
   modelled by the none result. Sleep durations are recorded in
   milliseconds, tagged by which sleep statement ran: the backoff sleep in
   the retry loop or the inter-request sleep after a line. -/

/-- One recorded sleep call, with its duration in milliseconds. -/
inductive SleepEv where
  | backoff (ms : Nat)
  | inter (ms : Nat)
deriving Repr, DecidableEq

/-- A translation backend: from a state and a line, a new state and either
    a translation or a failure. -/
def Backend (σ : Type) : Type := σ → Chars → σ × Option Chars

/-- Backend built from a total function: every call succeeds. -/
def totalBackend (f : Chars → Chars) : Backend Unit := fun s ln => (s, some (f ln))

/-- Backend that fails on every call, counting calls in its state. -/
def failingB : Backend Nat := fun n _ => (n + 1, none)

/-- Backend that fails on its first four calls and succeeds afterwards,
    counting calls in its state. -/
def flakyB (f : Chars → Chars) : Backend Nat :=
  fun n ln => (n + 1, if 4 ≤ n then some (f ln) else none)

/-- Instrumentation counting the calls made to a backend. -/
def countCalls (tr : Backend σ) : Backend (σ × Nat) :=
  fun p ln => (((tr p.1 ln).1, p.2 + 1), (tr p.1 ln).2)

/-- The retry loop over the attempt numbers of range 5: on success break
    with the result; on failure raise if the attempt number is 4, else
    sleep 0.8 seconds times the one-based attempt number and retry. -/
def retryLoop (tr : Backend σ) (ln : Chars) : List Nat → σ → σ × List SleepEv × Option Chars
  | [], s => (s, [], none)
  | a :: rest, s =>
    let s2 := (tr s ln).1
    match (tr s ln).2 with
    | some t => (s2, [], some t)
    | none =>
      if a = 4 then (s2, [], none)
      else
        let r := retryLoop tr ln rest s2
        (r.1, SleepEv.backoff (800 * (a + 1)) :: r.2.1, r.2.2)

/-- Attempt numbers of range 5. -/
def range5 : List Nat := [0, 1, 2, 3, 4]

/-- Line blankness test of the source: the stripped line is empty, that is,
    every character is whitespace. -/
def isBlankLine (ln : Chars) : Bool := ln.all isSpacePy

/-- Processing of one line of translate_text_preserving_newlines: blank
    lines pass through; otherwise run the retry loop and, on success, sleep
    the inter-request duration; a failure propagates with no such sleep. -/
def translateLine (tr : Backend σ) (sleepDur : Nat) (ln : Chars) (s : σ) :
    σ × List SleepEv × Option Chars :=
  if isBlankLine ln then (s, [], some ln)
  else
    let r := retryLoop tr ln range5 s
    match r.2.2 with
    | some t => (r.1, r.2.1 ++ [SleepEv.inter sleepDur], some t)
    | none => (r.1, r.2.1, none)

/-- Processing of the list of lines in order; a failure aborts the whole
    list, as the raised exception does in the source. -/
def translateLines (tr : Backend σ) (sleepDur : Nat) :
    List Chars → σ → σ × List SleepEv × Option (List Chars)
  | [], s => (s, [], some [])
  | ln :: rest, s =>
    let r1 := translateLine tr sleepDur ln s
    match r1.2.2 with
    | none => (r1.1, r1.2.1, none)
    | some t =>
      let r2 := translateLines tr sleepDur rest r1.1
      match r2.2.2 with
      | none => (r2.1, r1.2.1 ++ r2.2.1, none)
      | some ts => (r2.1, r1.2.1 ++ r2.2.1, some (t :: ts))

/-- Split on every newline, as the split method on the newline separator:
    the result is always nonempty and an ending newline yields a final
    empty piece. -/
def splitNL : Chars → List Chars
  | [] => [[]]
  | c :: rest =>
    if c = '\n' then [] :: splitNL rest
    else
      match splitNL rest with
      | l :: ls => (c :: l) :: ls
      | [] => [[c]]

/-- Join with newline separators, as the join method on a newline. -/
def joinNL : List Chars → Chars
  | [] => []
  | [l] => l
  | l :: ls => l ++ '\n' :: joinNL ls

/-- The function translate_text_preserving_newlines: split into lines,
    process each line, join the results with newlines. -/
def translate_text_preserving_newlines (tr : Backend σ) (sleepDur : Nat)
    (text : Chars) (s : σ) : σ × List SleepEv × Option Chars :=
  let r := translateLines tr sleepDur (splitNL text) s
  match r.2.2 with
  | some outs => (r.1, r.2.1, some (joinNL outs))
  | none => (r.1, r.2.1, none)

/-- Walk of translate_srt over the matches: emit the verbatim span before
    each block, the reassembled block with translated text, and finally the
    verbatim tail; a failure aborts the whole document. -/
def translateParts (tr : Backend σ) (sleepDur : Nat) :
    List (Chars × SrtBlock × Chars) → Chars → σ → σ × List SleepEv × Option Chars
  | [], tail, s => (s, [], some tail)
  | (pre, b, _) :: rest, tail, s =>
    let r1 := translate_text_preserving_newlines tr sleepDur b.txt s
    match r1.2.2 with
    | none => (r1.1, r1.2.1, none)
    | some ttxt =>
      let r2 := translateParts tr sleepDur rest tail r1.1
      match r2.2.2 with
      | none => (r2.1, r1.2.1 ++ r2.2.1, none)
      | some out =>
        (r2.1, r1.2.1 ++ r2.2.1, some (pre ++ renderBlock b.idx b.t1 b.t2 ttxt ++ out))

/-- The function translate_srt on a whole document. -/
def translate_srt (tr : Backend σ) (sleepDur : Nat) (content : Chars) (s : σ) :
    σ × List SleepEv × Option Chars :=
  translateParts tr sleepDur (srtParts content).1 (srtParts content).2 s

/- Statement-side characterizations used to express properties: the pure
   result of the line translator under a backend that always succeeds. -/

/-- Pure per-line result under a total backend: blank lines unchanged,
    other lines translated. -/
def pureLine (f : Chars → Chars) (ln : Chars) : Chars :=
  if isBlankLine ln then ln else f ln

/-- Pure result of the text translator under a total backend. -/
def pureText (f : Chars → Chars) (text : Chars) : Chars :=
  joinNL ((splitNL text).map (pureLine f))

/-- Pure reassembly of the document under a total backend. -/
def pureJoin (f : Chars → Chars) : List (Chars × SrtBlock × Chars) → Chars → Chars
  | [], tail => tail
  | (pre, b, _) :: rest, tail =>
    pre ++ renderBlock b.idx b.t1 b.t2 (pureText f b.txt) ++ pureJoin f rest tail

/-- Reassembly of the original bytes from the scanner output: each verbatim
    span followed by the raw matched characters, then the tail. -/
def origJoin : List (Chars × SrtBlock × Chars) → Chars → Chars
  | [], tail => tail
  | (pre, _, raw) :: rest, tail => pre ++ raw ++ origJoin rest tail

/- Batch orchestrator of main: the output directory is a store from file
   names to contents; files are processed in order. The source calls
   translate_srt with its default sleep duration of 0.4 seconds, so the
   model passes 400 milliseconds. -/

/-- Output directory contents. -/
def Store : Type := String → Option Chars

/-- The per-file loop of main: skip when the output exists and overwrite is
    not set; otherwise translate and write, and on failure log and continue
    with the next file. -/
def runBatchAux (tr : Backend σ) (overwrite : Bool) :
    List (String × Chars) → σ → Store → List String → Nat →
    σ × Store × List String × Nat
  | [], s, out, log, done => (s, out, log, done)
  | (name, content) :: rest, s, out, log, done =>
    if (out name).isSome && !overwrite then
      runBatchAux tr overwrite rest s out (log ++ ["Skipping existing: " ++ name]) (done + 1)
    else
      let r := translate_srt tr 400 content s
      match r.2.2 with
      | some t =>
        runBatchAux tr overwrite rest r.1 (fun m => if m = name then some t else out m)
          (log ++ ["Translated: " ++ name]) (done + 1)
      | none =>
        runBatchAux tr overwrite rest r.1 out (log ++ ["Failed: " ++ name]) done

/- Backend construction of load_translator. The three variants carry the
   configuration each wrapper class closes over; libretranslate and deepl
   checks mirror the truthiness tests of the source, where both a missing
   option and an empty string are falsy. -/

/-- The configured translator variants. -/
inductive TranslatorCfg where
  | google (src tgt : String)
  | libre (url : String) (apiKey : Option String) (src tgt : String)
  | deepl (key : String) (src tgt : String)
deriving Repr, DecidableEq

/-- Truthiness of an optional string in the source: absent or empty is
    falsy. -/
def isFalsy : Option String → Bool
  | none => true
  | some s => s = ""

/-- The or operator of the source on optional strings: the first operand if
    truthy, else the second. -/
def pyOr (a b : Option String) : Option String :=
  if isFalsy a then b else a

/-- The function load_translator: google needs nothing, libre requires an
    endpoint URL, deepl requires a key either explicit or from the
    environment; a missing requirement aborts with a fatal error. -/
def load_translator (backend src tgt : String)
    (libre_url libre_api_key deepl_api_key env_deepl : Option String) :
    Except String TranslatorCfg :=
  if backend = "google" then .ok (.google src tgt)
  else if backend = "libre" then
    if isFalsy libre_url then
      .error "--libre-url is required for backend=libre"
    else .ok (.libre (libre_url.getD "") libre_api_key src tgt)
  else if backend = "deepl" then
    let key := pyOr deepl_api_key env_deepl
    if isFalsy key then
      .error "DeepL backend selected but no API key provided."
    else .ok (.deepl (key.getD "") src tgt)
  else .error "Unknown backend"

/-- The function main: construct the backend first and abort fatally on a
    configuration error, before touching any file; otherwise run the batch
    loop. The interp argument gives the network behavior of a configured
    backend. -/
def mainModel (interp : TranslatorCfg → Backend σ) (s : σ) (backend src tgt : String)
    (libre_url libre_api_key deepl_api_key env_deepl : Option String)
    (overwrite : Bool) (files : List (String × Chars)) (out : Store) :
    Option String × σ × Store × List String × Nat :=
  match load_translator backend src tgt libre_url libre_api_key deepl_api_key env_deepl with
  | .error e => (some e, s, out, [], 0)
  | .ok cfg => (none, runBatchAux (interp cfg) overwrite files s out [] 0)

/-- Sample dictionary backend of the two-line caption scenario. -/
def demoDict (ln : Chars) : Chars :=
  if ln = "Hello".toList then "Hola".toList
  else if ln = "world".toList then "mundo".toList
  else ln

/-- Fixed head of the sample documents: index line 1 and a timestamp line. -/
def demoHead : Chars := "1\n00:00:01,000 --> 00:00:02,000\n".toList

/-- Characters that are neither digits nor whitespace; a text line made of
    these is an ordinary caption line. -/
def plainChar (c : Char) : Bool := !isDigitPy c && !isSpacePy c

/- Helper lemmas. -/

theorem ne_nl_of_not_space {c : Char} (h : isSpacePy c = false) : (c == '\n') = false := by
  cases hc : c == '\n'
  · rfl
  · rw [beq_iff_eq] at hc
    subst hc
    simp [isSpacePy] at h

theorem not_digit_of_plain {c : Char} (h : plainChar c = true) : isDigitPy c = false := by
  simp [plainChar] at h
  exact h.1

theorem not_space_of_plain {c : Char} (h : plainChar c = true) : isSpacePy c = false := by
  simp [plainChar] at h
  exact h.2

theorem origJoin_srtPartsAux (fuel : Nat) :
    ∀ (acc s : Chars),
      origJoin (srtPartsAux fuel acc s).1 (srtPartsAux fuel acc s).2 = acc.reverse ++ s := by
  induction fuel with
  | zero => intro acc s; simp [srtPartsAux, origJoin]
  | succ m ih =>
    intro acc s
    simp only [srtPartsAux]
    cases hm : matchBlock s with
    | some bn =>
      obtain ⟨b, k⟩ := bn
      simp only [origJoin]
      rw [ih [] (s.drop k)]
      simp [List.take_append_drop]
    | none =>
      cases s with
      | nil => simp [origJoin]
      | cons c rest =>
        rw [ih (c :: acc) rest]
        simp

theorem translateLine_total (f : Chars → Chars) (sd : Nat) (ln : Chars) :
    translateLine (totalBackend f) sd ln ()
      = ((), if isBlankLine ln then [] else [SleepEv.inter sd], some (pureLine f ln)) := by
  by_cases h : isBlankLine ln <;>
    simp [translateLine, pureLine, h, retryLoop, range5, totalBackend]

theorem translateLines_total (f : Chars → Chars) (sd : Nat) :
    ∀ lns : List Chars, ∃ log,
      translateLines (totalBackend f) sd lns () = ((), log, some (lns.map (pureLine f))) := by
  intro lns
  induction lns with
  | nil => exact ⟨[], rfl⟩
  | cons ln rest ih =>
    obtain ⟨log2, h2⟩ := ih
    refine ⟨(if isBlankLine ln then [] else [SleepEv.inter sd]) ++ log2, ?_⟩
    simp [translateLines, translateLine_total, h2]

theorem ttpn_total (f : Chars → Chars) (sd : Nat) (text : Chars) :
    ∃ log, translate_text_preserving_newlines (totalBackend f) sd text ()
      = ((), log, some (pureText f text)) := by
  obtain ⟨log, h⟩ := translateLines_total f sd (splitNL text)
  exact ⟨log, by simp [translate_text_preserving_newlines, h, pureText]⟩

theorem translateParts_total (f : Chars → Chars) (sd : Nat) :
    ∀ (ps : List (Chars × SrtBlock × Chars)) (tail : Chars), ∃ log,
      translateParts (totalBackend f) sd ps tail () = ((), log, some (pureJoin f ps tail)) := by
  intro ps
  induction ps with
  | nil => intro tail; exact ⟨[], rfl⟩
  | cons p rest ih =>
    intro tail
    obtain ⟨pre, b, raw⟩ := p
    obtain ⟨log1, h1⟩ := ttpn_total f sd b.txt
    obtain ⟨log2, h2⟩ := ih tail
    exact ⟨log1 ++ log2, by simp [translateParts, h1, h2, pureJoin]⟩

theorem splitNL_ne_nil : ∀ l : Chars, splitNL l ≠ [] := by
  intro l
  cases l with
  | nil => simp [splitNL]
  | cons c rest =>
    simp only [splitNL]
    by_cases h : c = '\n'
    · simp [h]
    · simp only [h, if_false]
      cases splitNL rest <;> simp

theorem splitNL_mem_no_nl : ∀ (l : Chars) (p : Chars), p ∈ splitNL l → '\n' ∉ p := by
  intro l
  induction l with
  | nil => intro p hp; simp [splitNL] at hp; simp [hp]
  | cons c rest ih =>
    intro p hp
    simp only [splitNL] at hp
    by_cases h : c = '\n'
    · simp only [h, if_true] at hp
      rcases List.mem_cons.mp hp with h1 | h1
      · simp [h1]
      · exact ih p h1
    · simp only [h, if_false] at hp
      cases hs : splitNL rest with
      | nil =>
        rw [hs] at hp
        simp at hp
        subst hp
        intro hm
        rcases List.mem_singleton.mp hm with hco
        exact h hco.symm
      | cons q qs =>
        rw [hs] at hp
        rcases List.mem_cons.mp hp with h1 | h1
        · subst h1
          have hq : '\n' ∉ q := ih q (by rw [hs]; exact List.mem_cons_self _ _)
          intro hm
          rcases List.mem_cons.mp hm with hco | hin
          · exact h hco.symm
          · exact hq hin
        · exact ih p (by rw [hs]; exact List.mem_cons_of_mem q h1)

theorem splitNL_no_nl : ∀ l : Chars, '\n' ∉ l → splitNL l = [l] := by
  intro l
  induction l with
  | nil => intro _; rfl
  | cons c rest ih =>
    intro h
    have hc : ¬c = '\n' := by
      intro hco
      exact h (by rw [← hco]; exact List.mem_cons_self _ _)
    have hrest : '\n' ∉ rest := fun hm => h (List.mem_cons_of_mem c hm)
    simp only [splitNL, hc, if_false, ih hrest]

theorem splitNL_append_nl : ∀ l : Chars, ∀ r : Chars, '\n' ∉ l →
    splitNL (l ++ '\n' :: r) = l :: splitNL r := by
  intro l
  induction l with
  | nil => intro r _; simp [splitNL]
  | cons c rest ih =>
    intro r h
    have hc : ¬c = '\n' := by
      intro hco
      exact h (by rw [← hco]; exact List.mem_cons_self _ _)
    have hrest : '\n' ∉ rest := fun hm => h (List.mem_cons_of_mem c hm)
    have ih2 := ih r hrest
    simp only [List.cons_append, splitNL, hc, if_false, List.append_eq]
    rw [ih2]

theorem splitNL_joinNL : ∀ ls : List Chars, ls ≠ [] → (∀ l ∈ ls, '\n' ∉ l) →
    splitNL (joinNL ls) = ls := by
  intro ls
  induction ls with
  | nil => intro h; exact absurd rfl h
  | cons l rest ih =>
    intro _ hall
    cases rest with
    | nil => exact (by simp [joinNL, splitNL_no_nl l (hall l (List.mem_cons_self l []))])
    | cons l2 rest2 =>
      have h1 : '\n' ∉ l := hall l (List.mem_cons_self ..)
      have h2 : ∀ p ∈ l2 :: rest2, '\n' ∉ p := fun p hp => hall p (List.mem_cons_of_mem l hp)
      show splitNL (l ++ '\n' :: joinNL (l2 :: rest2)) = l :: l2 :: rest2
      rw [splitNL_append_nl l _ h1, ih (by simp) h2]

theorem retryLoop_calls (tr : Backend σ) (ln : Chars) :
    ∀ (attempts : List Nat) (s : σ) (n : Nat),
      ((retryLoop (countCalls tr) ln attempts (s, n)).1).2 ≤ n + attempts.length := by
  intro attempts
  induction attempts with
  | nil => intro s n; simp [retryLoop]
  | cons a rest ih =>
    intro s n
    simp only [retryLoop, countCalls, List.length_cons]
    cases hr : (tr s ln).2 with
    | some t => simp
    | none =>
      by_cases ha : a = 4
      · simp [ha]
      · simp only [ha, if_false]
        have hle := ih (tr s ln).1 (n + 1)
        exact hle.trans (by omega)

theorem retryLoop_log_backoff (tr : Backend σ) (ln : Chars) :
    ∀ (attempts : List Nat) (s : σ) (e : SleepEv),
      e ∈ (retryLoop tr ln attempts s).2.1 → ∃ m, e = SleepEv.backoff m := by
  intro attempts
  induction attempts with
  | nil => intro s e h; simp [retryLoop] at h
  | cons a rest ih =>
    intro s e h
    simp only [retryLoop] at h
    cases hr : (tr s ln).2 with
    | some t =>
      rw [hr] at h
      simp at h
    | none =>
      rw [hr] at h
      by_cases ha : a = 4
      · rw [if_pos ha] at h
        simp at h
      · rw [if_neg ha] at h
        simp only [List.mem_cons] at h
        rcases h with h1 | h1
        · exact ⟨800 * (a + 1), h1⟩
        · exact ih (tr s ln).1 e h1

/- Claim theorems. -/

/-- Claim C1. The claim states that translating with an identity backend
    reproduces the document byte for byte. The code violates it: the match
    of a block ends before the blank line separator, yet reassembly appends
    a fresh blank line pair, so the separator is emitted twice. On the
    one-block document below the identity translation appends two extra
    newlines instead of reproducing the input. -/
theorem c1_identity_roundtrip_fails :
    (translate_srt (totalBackend id) 400
        ("1\n00:00:01,000 --> 00:00:02,000\nHello\n\n".toList) ()).2.2
      = some ("1\n00:00:01,000 --> 00:00:02,000\nHello\n\n".toList ++ ['\n', '\n'])
    ∧ "1\n00:00:01,000 --> 00:00:02,000\nHello\n\n".toList ++ ['\n', '\n']
        ≠ "1\n00:00:01,000 --> 00:00:02,000\nHello\n\n".toList := by
  decide

/-- Claim C2. The claim states that a block with two text lines is
    recognized and each line is translated. The code violates it: the
    pattern is compiled without DOTALL, so the lazy dot-star of the text
    group cannot cross a newline and a two-line caption block does not
    match at all. On the scenario document the backend that translates both
    words is never consulted and the output equals the input. -/
theorem c2_twoline_block_untranslated :
    demoDict "Hello".toList = "Hola".toList
    ∧ demoDict "world".toList = "mundo".toList
    ∧ (srtParts ("1\n00:00:01,000 --> 00:00:02,000\nHello\nworld\n\n".toList)).1 = []
    ∧ (translate_srt (totalBackend demoDict) 400
        ("1\n00:00:01,000 --> 00:00:02,000\nHello\nworld\n\n".toList) ()).2.2
      = some ("1\n00:00:01,000 --> 00:00:02,000\nHello\nworld\n\n".toList) := by
  refine ⟨by decide, by decide, by decide, by decide⟩

/-- Claim C3. For a non-blank line the line translator makes at most 5
    backend attempts; a backend failing exactly 4 times then succeeding
    yields the successful translation after 5 calls, and a backend failing
    on all 5 attempts propagates the failure after exactly 5 calls. -/
theorem c3_retry_bound (f : Chars → Chars) (sd : Nat) (ln : Chars)
    (h : isBlankLine ln = false) :
    (∀ (σ2 : Type) (tr : Backend σ2) (s : σ2),
      ((translateLine (countCalls tr) sd ln (s, 0)).1).2 ≤ 5)
    ∧ translateLine (flakyB f) sd ln 0
      = (5, [SleepEv.backoff 800, SleepEv.backoff 1600, SleepEv.backoff 2400,
             SleepEv.backoff 3200, SleepEv.inter sd], some (f ln))
    ∧ translateLine failingB sd ln 0
      = (5, [SleepEv.backoff 800, SleepEv.backoff 1600, SleepEv.backoff 2400,
             SleepEv.backoff 3200], none) := by
  refine ⟨?_, ?_, ?_⟩
  · intro σ2 tr s
    have hb := retryLoop_calls tr ln range5 s 0
    simp only [translateLine, h, Bool.false_eq_true, if_false]
    cases hr : (retryLoop (countCalls tr) ln range5 (s, 0)).2.2 with
    | some t => simpa [range5] using hb
    | none => simpa [range5] using hb
  · simp [translateLine, h, retryLoop, range5, flakyB]
  · simp [translateLine, h, retryLoop, range5, failingB]

/-- Witness for claim C3 at a concrete line. -/
theorem c3_retry_bound_witness :
    isBlankLine "Hi".toList = false
    ∧ translateLine (flakyB id) 400 "Hi".toList 0
      = (5, [SleepEv.backoff 800, SleepEv.backoff 1600, SleepEv.backoff 2400,
             SleepEv.backoff 3200, SleepEv.inter 400], some "Hi".toList) :=
  ⟨by decide, (c3_retry_bound id 400 "Hi".toList (by decide)).2.1⟩

/-- Counterexample to claim C5 as stated: quantified over every backend
    function, line count is not preserved, because a backend result may
    itself contain a newline which the joined output then splits on. -/
theorem c5_counterexample :
    (translate_text_preserving_newlines (totalBackend (fun _ => ['a', '\n', 'b'])) 400
        "Hello".toList ()).2.2 = some ['a', '\n', 'b']
    ∧ ¬ (splitNL ['a', '\n', 'b']).length = (splitNL "Hello".toList).length := by
  refine ⟨by decide, by decide⟩

/-- Claim C5 as amended: for every backend function whose results contain
    no newline, the translated text of a block splits into exactly the
    lines of the input, blank lines unchanged and each non-blank line
    replaced by its translation, so the line count is preserved. -/
theorem c5_line_count_preserved (f : Chars → Chars) (sd : Nat) (text : Chars)
    (hf : ∀ ln, '\n' ∉ f ln) :
    (translate_text_preserving_newlines (totalBackend f) sd text ()).2.2
      = some (pureText f text)
    ∧ splitNL (pureText f text) = (splitNL text).map (pureLine f)
    ∧ (splitNL (pureText f text)).length = (splitNL text).length := by
  have hsplit : splitNL (pureText f text) = (splitNL text).map (pureLine f) := by
    refine splitNL_joinNL _ ?_ ?_
    · intro hmap
      exact splitNL_ne_nil text (List.map_eq_nil_iff.mp hmap)
    · intro l hl
      rcases List.mem_map.mp hl with ⟨p, hp, hpl⟩
      subst hpl
      by_cases hb : isBlankLine p
      · simpa [pureLine, hb] using splitNL_mem_no_nl text p hp
      · simpa [pureLine, hb] using hf p
  refine ⟨?_, hsplit, by rw [hsplit]; exact List.length_map _ _⟩
  obtain ⟨log, heq⟩ := ttpn_total f sd text
  rw [heq]

/-- Witness for amended claim C5 at a concrete text and backend. -/
theorem c5_line_count_preserved_witness :
    (translate_text_preserving_newlines (totalBackend (fun _ => ['a'])) 400
        "x\ny".toList ()).2.2 = some (pureText (fun _ => ['a']) "x\ny".toList)
    ∧ splitNL (pureText (fun _ => ['a']) "x\ny".toList)
      = (splitNL "x\ny".toList).map (pureLine (fun _ => ['a']))
    ∧ (splitNL (pureText (fun _ => ['a']) "x\ny".toList)).length
      = (splitNL "x\ny".toList).length :=
  c5_line_count_preserved (fun _ => ['a']) 400 "x\ny".toList (fun ln => by simp)

/-- Claim C6. For every document the scanner splits the input into the
    verbatim spans and the raw matched block spans, whose concatenation in
    order reproduces the input exactly; under any total backend the output
    interleaves the same verbatim spans, unchanged and in their original
    order, with the reassembled blocks, and no error occurs. -/
theorem c6_verbatim_preserved (content : Chars) (f : Chars → Chars) (sd : Nat) :
    origJoin (srtParts content).1 (srtParts content).2 = content
    ∧ (translate_srt (totalBackend f) sd content ()).2.2
      = some (pureJoin f (srtParts content).1 (srtParts content).2) := by
  constructor
  · simpa using origJoin_srtPartsAux (content.length + 1) [] content
  · obtain ⟨log, h⟩ := translateParts_total f sd (srtParts content).1 (srtParts content).2
    simp [translate_srt, h]

/-- Counterexample to claim C8 as stated: on a line whose retries are
    exhausted no inter-request delay is observed, because the reraised
    exception leaves the function before the sleep statement; the log of a
    failing line holds only the four backoff sleeps. -/
theorem c8_counterexample :
    translateLine failingB 400 "Hi".toList 0
      = (5, [SleepEv.backoff 800, SleepEv.backoff 1600, SleepEv.backoff 2400,
             SleepEv.backoff 3200], none)
    ∧ SleepEv.inter 400 ∉ (translateLine failingB 400 "Hi".toList 0).2.1 := by
  refine ⟨by decide, by decide⟩

/-- Claim C8 as amended: the inter-request delay of the configured duration
    follows each successfully translated non-blank line; no delay follows a
    blank line; and when a non-blank line exhausts its retries the failure
    propagates immediately, with only backoff sleeps and no inter-request
    delay. -/
theorem c8_inter_delay (tr : Backend σ) (sd : Nat) (ln : Chars) (s : σ) :
    (isBlankLine ln = true → translateLine tr sd ln s = (s, [], some ln))
    ∧ (isBlankLine ln = false →
        (∀ s2 log t, retryLoop tr ln range5 s = (s2, log, some t) →
          translateLine tr sd ln s = (s2, log ++ [SleepEv.inter sd], some t))
        ∧ (∀ s2 log, retryLoop tr ln range5 s = (s2, log, none) →
            translateLine tr sd ln s = (s2, log, none)
            ∧ ∀ d, SleepEv.inter d ∉ log)) := by
  constructor
  · intro hb
    simp [translateLine, hb]
  · intro hb
    constructor
    · intro s2 log t hrl
      simp [translateLine, hb, hrl]
    · intro s2 log hrl
      constructor
      · simp [translateLine, hb, hrl]
      · intro d hmem
        have hlog : log = (retryLoop tr ln range5 s).2.1 := by rw [hrl]
        rcases retryLoop_log_backoff tr ln range5 s (SleepEv.inter d)
          (by rw [← hlog]; exact hmem) with ⟨m, hm⟩
        exact SleepEv.noConfusion hm

/-- Witness for amended claim C8 at a concrete failing line. -/
theorem c8_inter_delay_witness :
    translateLine failingB 400 "Hi".toList 0
      = (5, [SleepEv.backoff 800, SleepEv.backoff 1600, SleepEv.backoff 2400,
             SleepEv.backoff 3200], none)
    ∧ ∀ d, SleepEv.inter d ∉
        [SleepEv.backoff 800, SleepEv.backoff 1600, SleepEv.backoff 2400,
         SleepEv.backoff 3200] :=
  ((c8_inter_delay failingB 400 "Hi".toList 0).2 (by decide)).2 5
    [SleepEv.backoff 800, SleepEv.backoff 1600, SleepEv.backoff 2400,
     SleepEv.backoff 3200] (by decide)

theorem runBatchAux_not_written (tr : Backend σ) (ov : Bool) :
    ∀ (files : List (String × Chars)) (s : σ) (out : Store) (log : List String)
      (done : Nat) (n : String), n ∉ files.map Prod.fst → out n = none →
      ((runBatchAux tr ov files s out log done).2.1) n = none := by
  intro files
  induction files with
  | nil => intro s out log done n _ h; simpa [runBatchAux] using h
  | cons p rest ih =>
    intro s out log done n hn h
    obtain ⟨name, content⟩ := p
    simp only [List.map_cons, List.mem_cons] at hn
    push_neg at hn
    obtain ⟨hn1, hn2⟩ := hn
    simp only [runBatchAux]
    by_cases hskip : ((out name).isSome && !ov) = true
    · rw [if_pos hskip]
      exact ih _ _ _ _ _ hn2 h
    · rw [if_neg hskip]
      cases htr : (translate_srt tr 400 content s).2.2 with
      | some t =>
        apply ih _ _ _ _ _ hn2
        simp [hn1, h]
      | none => exact ih _ _ _ _ _ hn2 h

theorem runBatchAux_keeps_existing (tr : Backend σ) :
    ∀ (files : List (String × Chars)) (s : σ) (out : Store) (log : List String)
      (done : Nat) (n : String) (v : Chars), out n = some v →
      ((runBatchAux tr false files s out log done).2.1) n = some v := by
  intro files
  induction files with
  | nil => intro s out log done n v h; simpa [runBatchAux] using h
  | cons p rest ih =>
    intro s out log done n v h
    obtain ⟨name, content⟩ := p
    simp only [runBatchAux]
    by_cases hex : (out name).isSome
    · rw [if_pos (by simp [hex])]
      exact ih _ _ _ _ _ _ h
    · rw [if_neg (by simp [hex])]
      cases htr : (translate_srt tr 400 content s).2.2 with
      | some t =>
        apply ih
        have hne : ¬n = name := by
          intro he
          rw [← he, h] at hex
          exact hex rfl
        simp [hne, h]
      | none => exact ih _ _ _ _ _ _ h

/-- Claim C4. When a file whose output does not yet exist fails to
    translate because a line exhausted its retries, the step logs the
    failure with the filename and continues with the remaining files
    without writing anything, and provided no later file shares the name,
    the finished batch still has no output for that file. -/
theorem c4_failed_file (σ2 : Type) (tr : Backend σ2) (ov : Bool) (name : String)
    (content : Chars) (rest : List (String × Chars)) (s : σ2) (out : Store)
    (log : List String) (done : Nat)
    (habs : out name = none)
    (hfail : (translate_srt tr 400 content s).2.2 = none)
    (hrest : name ∉ rest.map Prod.fst) :
    runBatchAux tr ov ((name, content) :: rest) s out log done
      = runBatchAux tr ov rest (translate_srt tr 400 content s).1 out
          (log ++ ["Failed: " ++ name]) done
    ∧ (runBatchAux tr ov ((name, content) :: rest) s out log done).2.1 name = none := by
  have hstep : runBatchAux tr ov ((name, content) :: rest) s out log done
      = runBatchAux tr ov rest (translate_srt tr 400 content s).1 out
          (log ++ ["Failed: " ++ name]) done := by
    simp only [runBatchAux]
    rw [if_neg (by simp [habs])]
    rw [hfail]
  refine ⟨hstep, ?_⟩
  rw [hstep]
  exact runBatchAux_not_written tr ov rest _ out _ done name hrest habs

/-- Witness for claim C4: a failing backend on a one-block file, followed
    by a second file, with an empty output directory. -/
theorem c4_failed_file_witness :
    runBatchAux failingB false
        [("a.srt", "1\n00:00:01,000 --> 00:00:02,000\nHi\n\n".toList),
         ("b.srt", "x".toList)] 0 (fun _ => none) [] 0
      = runBatchAux failingB false [("b.srt", "x".toList)]
          (translate_srt failingB 400
            ("1\n00:00:01,000 --> 00:00:02,000\nHi\n\n".toList) 0).1
          (fun _ => none) ([] ++ ["Failed: " ++ "a.srt"]) 0
    ∧ (runBatchAux failingB false
        [("a.srt", "1\n00:00:01,000 --> 00:00:02,000\nHi\n\n".toList),
         ("b.srt", "x".toList)] 0 (fun _ => none) [] 0).2.1 "a.srt" = none :=
  c4_failed_file Nat failingB false "a.srt"
    ("1\n00:00:01,000 --> 00:00:02,000\nHi\n\n".toList)
    [("b.srt", "x".toList)] 0 (fun _ => none) [] 0 rfl (by decide) (by decide)

/-- Claim C7. Without the overwrite flag, a file whose output already
    exists is skipped: the step only logs the skip and bumps the done
    count, touching neither the backend state nor the store; moreover any
    entry present in the store before a batch run is unchanged after it, so
    a second run changes no already-existing output file. -/
theorem c7_skip_existing (σ2 : Type) (tr : Backend σ2) (name : String)
    (content : Chars) (rest : List (String × Chars)) (s : σ2) (out : Store)
    (log : List String) (done : Nat) (v : Chars) (hex : out name = some v) :
    runBatchAux tr false ((name, content) :: rest) s out log done
      = runBatchAux tr false rest s out (log ++ ["Skipping existing: " ++ name]) (done + 1)
    ∧ ∀ (files : List (String × Chars)) (s0 : σ2) (out0 : Store) (log0 : List String)
        (done0 : Nat) (n : String) (w : Chars), out0 n = some w →
        (runBatchAux tr false files s0 out0 log0 done0).2.1 n = some w := by
  constructor
  · simp only [runBatchAux]
    rw [if_pos (by simp [hex])]
  · intro files s0 out0 log0 done0 n w h
    exact runBatchAux_keeps_existing tr files s0 out0 log0 done0 n w h

/-- Witness for claim C7: a store with one existing output and a one-file
    batch over it. -/
theorem c7_skip_existing_witness :
    runBatchAux (totalBackend id) false [("a.srt", "x".toList)] ()
        (fun m => if m = "a.srt" then some "v".toList else none) [] 0
      = runBatchAux (totalBackend id) false [] ()
          (fun m => if m = "a.srt" then some "v".toList else none)
          ([] ++ ["Skipping existing: " ++ "a.srt"]) (0 + 1)
    ∧ ∀ (files : List (String × Chars)) (s0 : Unit) (out0 : Store) (log0 : List String)
        (done0 : Nat) (n : String) (w : Chars), out0 n = some w →
        (runBatchAux (totalBackend id) false files s0 out0 log0 done0).2.1 n = some w :=
  c7_skip_existing Unit (totalBackend id) "a.srt" "x".toList [] ()
    (fun m => if m = "a.srt" then some "v".toList else none) [] 0 "v".toList (by decide)

/-- Claim C9. Backend construction fails fast before any file is
    processed: the libre backend without an endpoint URL and the deepl
    backend with neither an explicit key nor the environment variable abort
    fatally, leaving the store, the state, the log and the done count
    untouched; and when the explicit deepl key is absent but the
    environment provides one, the environment value is used. -/
theorem c9_config_fail_fast (σ2 : Type) (interp : TranslatorCfg → Backend σ2)
    (s : σ2) (src tgt : String) (lurl lkey dkey env : Option String) (ov : Bool)
    (files : List (String × Chars)) (out : Store) :
    (isFalsy lurl = true →
      mainModel interp s "libre" src tgt lurl lkey dkey env ov files out
        = (some "--libre-url is required for backend=libre", s, out, [], 0))
    ∧ (isFalsy dkey = true → isFalsy env = true →
      mainModel interp s "deepl" src tgt lurl lkey dkey env ov files out
        = (some "DeepL backend selected but no API key provided.", s, out, [], 0))
    ∧ (∀ k, isFalsy dkey = true → env = some k → ¬k = "" →
      load_translator "deepl" src tgt lurl lkey dkey env
        = Except.ok (TranslatorCfg.deepl k src tgt)) := by
  refine ⟨?_, ?_, ?_⟩
  · intro hu
    simp [mainModel, load_translator, hu]
  · intro hd he
    simp [mainModel, load_translator, pyOr, hd, he]
  · intro k hd he hk
    have h1 : pyOr dkey env = some k := by simp [pyOr, hd, he]
    have h2 : isFalsy (some k) = false := by simp [isFalsy, hk]
    simp [load_translator, h1, h2]

/-- Witness for claim C9 at concrete configurations. -/
theorem c9_config_fail_fast_witness :
    mainModel (fun _ => totalBackend id) () "libre" "en" "es" none none none
        (some "KEY") false [] (fun _ => none)
      = (some "--libre-url is required for backend=libre", (),
         (fun _ => none : Store), [], 0)
    ∧ mainModel (fun _ => totalBackend id) () "deepl" "en" "es" none none none
        none false [] (fun _ => none)
      = (some "DeepL backend selected but no API key provided.", (),
         (fun _ => none : Store), [], 0)
    ∧ load_translator "deepl" "en" "es" none none none (some "KEY")
      = Except.ok (TranslatorCfg.deepl "KEY" "en" "es") :=
  ⟨(c9_config_fail_fast Unit (fun _ => totalBackend id) () "en" "es" none none
      none (some "KEY") false [] (fun _ => none)).1 rfl,
   (c9_config_fail_fast Unit (fun _ => totalBackend id) () "en" "es" none none
      none none false [] (fun _ => none)).2.1 rfl rfl,
   (c9_config_fail_fast Unit (fun _ => totalBackend id) () "en" "es" none none
      none (some "KEY") false [] (fun _ => none)).2.2 "KEY" rfl rfl (by decide)⟩

/- Lemmas for claim C10, about documents whose final block text is a line
   of plain characters, with or without a trailing newline. -/

theorem digit_not_space {c : Char} (h : isDigitPy c = true) : isSpacePy c = false := by
  cases hs : isSpacePy c
  · rfl
  · exfalso
    simp only [isSpacePy, Bool.or_eq_true, beq_iff_eq] at hs
    rcases hs with ((((h1 | h1) | h1) | h1) | h1) | h1 <;>
      (subst h1; simp [isDigitPy] at h)

theorem matchBlock_nondigit (c : Char) (t : Chars) (h : isDigitPy c = false) :
    matchBlock (c :: t) = none := by
  simp [matchBlock, matchBlockAux, plusGCap, h]

theorem afterIdx_head_stuck (idx : Chars) (c : Char) (r : Chars)
    (hs : isSpacePy c = false) : afterIdx idx (c :: r) = none := by
  simp [afterIdx, starG, hs, expectNl, ne_nl_of_not_space hs]

theorem afterIdx_nl_nondigit (idx : Chars) (a : Char) (t : Chars)
    (hs : isSpacePy a = false) (hd : isDigitPy a = false) :
    afterIdx idx ('\n' :: a :: t) = none := by
  simp [afterIdx, starG, expectNl, afterIdxNl, matchTimestamp, expectCls,
    hs, hd, ne_nl_of_not_space hs, show isSpacePy '\n' = true from rfl]

theorem starGCapAux_digits_nl (a : Char) (t : Chars)
    (hs : isSpacePy a = false) (hd : isDigitPy a = false) :
    ∀ (ds acc : Chars), ds.all isDigitPy = true →
      starGCapAux isDigitPy acc afterIdx (ds ++ '\n' :: a :: t) = none := by
  intro ds
  induction ds with
  | nil =>
    intro acc _
    simp only [List.nil_append, starGCapAux]
    rw [if_neg (by decide)]
    exact afterIdx_nl_nondigit _ a t hs hd
  | cons d ds2 ih =>
    intro acc hall
    simp only [List.all_cons, Bool.and_eq_true] at hall
    simp only [List.cons_append, starGCapAux, List.append_eq]
    rw [if_pos hall.1, ih (d :: acc) hall.2]
    exact afterIdx_head_stuck _ d _ (digit_not_space hall.1)

theorem matchBlock_digits_nl (a : Char) (t : Chars)
    (hs : isSpacePy a = false) (hd : isDigitPy a = false)
    (ds : Chars) (hds : ds.all isDigitPy = true) :
    matchBlock (ds ++ '\n' :: a :: t) = none := by
  cases ds with
  | nil => exact matchBlock_nondigit '\n' (a :: t) (by decide)
  | cons d ds2 =>
    simp only [List.all_cons, Bool.and_eq_true] at hds
    simp only [matchBlock, matchBlockAux, List.cons_append, plusGCap]
    rw [if_pos hds.1,
      show [d] = ([d] : Chars) from rfl]
    rw [starGCapAux_digits_nl a t hs hd ds2 [d] hds.2]

theorem matchBlock_suffix_line : ∀ w : Chars, (∀ c ∈ w, isDigitPy c = false) →
    ∀ u : Chars, u <:+ (w ++ ['\n']) → matchBlock u = none := by
  intro w
  induction w with
  | nil =>
    intro _ u hu
    simp only [List.nil_append] at hu
    rcases List.suffix_cons_iff.mp hu with h1 | h1
    · subst h1; exact matchBlock_nondigit '\n' [] (by decide)
    · rw [List.suffix_nil.mp h1]; rfl
  | cons c w2 ih =>
    intro hw u hu
    simp only [List.cons_append] at hu
    rcases List.suffix_cons_iff.mp hu with h1 | h1
    · subst h1
      exact matchBlock_nondigit c _ (hw c (List.mem_cons_self _ _))
    · exact ih (fun d hd => hw d (List.mem_cons_of_mem c hd)) u h1

theorem starL_text_end (idx t1 t2 : Chars) :
    ∀ (w acc : Chars), (∀ c ∈ w, (c == '\n') = false) →
      starLCapAux dotCls acc (textK idx t1 t2) w
        = some (⟨idx, t1, t2, acc.reverse ++ w⟩, []) := by
  intro w
  induction w with
  | nil => intro acc _; simp [starLCapAux, textK, lookaheadNNorEnd]
  | cons c w2 ih =>
    intro acc hw
    have hc : (c == '\n') = false := hw c (List.mem_cons_self _ _)
    simp only [starLCapAux, textK, lookaheadNNorEnd, hc, Bool.false_and,
      Bool.false_eq_true, if_false]
    rw [show dotCls c = true by simp [dotCls, hc]]
    simp only [if_true]
    rw [ih (c :: acc) (fun d hd => hw d (List.mem_cons_of_mem c hd))]
    simp

theorem starL_text_nl (idx t1 t2 : Chars) :
    ∀ (w acc : Chars), (∀ c ∈ w, (c == '\n') = false) →
      starLCapAux dotCls acc (textK idx t1 t2) (w ++ ['\n']) = none := by
  intro w
  induction w with
  | nil =>
    intro acc _
    simp [starLCapAux, textK, lookaheadNNorEnd, dotCls]
  | cons c w2 ih =>
    intro acc hw
    have hc : (c == '\n') = false := hw c (List.mem_cons_self _ _)
    simp only [List.cons_append, starLCapAux, textK, lookaheadNNorEnd, hc,
      Bool.false_and, Bool.false_eq_true, if_false]
    rw [show dotCls c = true by simp [dotCls, hc]]
    simp only [if_true]
    exact ih (c :: acc) (fun d hd => hw d (List.mem_cons_of_mem c hd))

theorem afterTs2_nl (idx t1 t2 : Chars) (a : Char) (t : Chars)
    (hs : isSpacePy a = false) :
    afterTs2 idx t1 t2 ('\n' :: a :: t) = textPart idx t1 t2 (a :: t) := by
  simp [afterTs2, starG, expectNl, hs, ne_nl_of_not_space hs,
    show isSpacePy '\n' = true from rfl]

theorem matchBlockAux_demoHead (a : Char) (t : Chars) :
    matchBlockAux (demoHead ++ a :: t)
      = afterTs2 ['1'] ("00:00:01,000".toList) ("00:00:02,000".toList)
          ('\n' :: a :: t) := rfl

theorem srtPartsAux_succ (fuel : Nat) (acc s : Chars) :
    srtPartsAux (fuel + 1) acc s =
      match matchBlock s with
      | some (b, n) =>
        ((acc.reverse, b, s.take n) :: (srtPartsAux fuel [] (s.drop n)).1,
          (srtPartsAux fuel [] (s.drop n)).2)
      | none =>
        match s with
        | [] => ([], acc.reverse)
        | c :: rest => srtPartsAux fuel (c :: acc) rest := rfl

theorem srtPartsAux_nil (fuel : Nat) (acc : Chars) :
    srtPartsAux fuel acc [] = ([], acc.reverse) := by
  cases fuel with
  | zero => simp [srtPartsAux]
  | succ n => simp [srtPartsAux, matchBlock, matchBlockAux, plusGCap]

theorem srtPartsAux_nomatch : ∀ (fuel : Nat) (acc s : Chars),
    (∀ u, u <:+ s → matchBlock u = none) →
    srtPartsAux fuel acc s = ([], acc.reverse ++ s) := by
  intro fuel
  induction fuel with
  | zero => intro acc s _; rfl
  | succ n ih =>
    intro acc s hall
    have h0 : matchBlock s = none := hall s (List.suffix_refl s)
    cases s with
    | nil => simp [srtPartsAux, h0]
    | cons c rest =>
      have hrec := ih (c :: acc) rest
        (fun u hu => hall u (hu.trans (List.suffix_cons c rest)))
      simp [srtPartsAux, h0, hrec]

theorem matchBlock_demoHead_trailing (a : Char) (t : Chars)
    (hs : isSpacePy a = false) (hwn : ∀ c ∈ a :: t, (c == '\n') = false) :
    matchBlock (demoHead ++ a :: (t ++ ['\n'])) = none := by
  have h1 : matchBlockAux (demoHead ++ a :: (t ++ ['\n'])) = none := by
    rw [matchBlockAux_demoHead a (t ++ ['\n']), afterTs2_nl _ _ _ a _ hs]
    show starLCapAux dotCls [] (textK _ _ _) (a :: (t ++ ['\n'])) = none
    rw [show a :: (t ++ ['\n']) = (a :: t) ++ ['\n'] from rfl]
    exact starL_text_nl _ _ _ (a :: t) [] hwn
  simp [matchBlock, h1]

theorem noMatch_trailing (a : Char) (t : Chars)
    (hw : ∀ c ∈ a :: t, plainChar c = true) :
    ∀ u : Chars, u <:+ (demoHead ++ (a :: t) ++ ['\n']) → matchBlock u = none := by
  have ha := hw a (List.mem_cons_self _ _)
  have hd : isDigitPy a = false := not_digit_of_plain ha
  have hs : isSpacePy a = false := not_space_of_plain ha
  have hwn : ∀ c ∈ a :: t, (c == '\n') = false :=
    fun c hc => ne_nl_of_not_space (not_space_of_plain (hw c hc))
  have htd : ∀ c ∈ t, isDigitPy c = false :=
    fun c hc => not_digit_of_plain (hw c (List.mem_cons_of_mem a hc))
  intro u hu
  have hD : demoHead ++ (a :: t) ++ ['\n']
      = '1' :: '\n' :: '0' :: '0' :: ':' :: '0' :: '0' :: ':' :: '0' :: '1' ::
        ',' :: '0' :: '0' :: '0' :: ' ' :: '-' :: '-' :: '>' :: ' ' :: '0' ::
        '0' :: ':' :: '0' :: '0' :: ':' :: '0' :: '2' :: ',' :: '0' :: '0' ::
        '0' :: '\n' :: a :: (t ++ ['\n']) := rfl
  rw [hD] at hu
  simp only [List.suffix_cons_iff] at hu
  rcases hu with rfl | rfl | rfl | rfl | rfl | rfl | rfl | rfl | rfl | rfl |
    rfl | rfl | rfl | rfl | rfl | rfl | rfl | rfl | rfl | rfl | rfl | rfl |
    rfl | rfl | rfl | rfl | rfl | rfl | rfl | rfl | rfl | rfl | rfl | hu
  · exact matchBlock_demoHead_trailing a t hs hwn
  · rfl
  · rfl
  · rfl
  · rfl
  · rfl
  · rfl
  · rfl
  · rfl
  · rfl
  · rfl
  · rfl
  · rfl
  · rfl
  · rfl
  · rfl
  · rfl
  · rfl
  · rfl
  · rfl
  · rfl
  · rfl
  · rfl
  · rfl
  · rfl
  · rfl
  · rfl
  · rfl
  · exact matchBlock_digits_nl a (t ++ ['\n']) hs hd ['0', '0', '0'] (by decide)
  · exact matchBlock_digits_nl a (t ++ ['\n']) hs hd ['0', '0'] (by decide)
  · exact matchBlock_digits_nl a (t ++ ['\n']) hs hd ['0'] (by decide)
  · rfl
  · exact matchBlock_nondigit a (t ++ ['\n']) hd
  · exact matchBlock_suffix_line t htd u hu

/-- Claim C10. For the sample document head, any final block whose text is
    a nonempty line of plain characters is recognized and translated when
    the text ends exactly at the end of the input, but when the text is
    followed by exactly one newline at the end of the input the pattern
    does not match anywhere, the whole document is the verbatim tail, and
    the text is emitted untranslated. -/
theorem c10_final_newline (w : Chars) (f : Chars → Chars) (sd : Nat)
    (hne : w ≠ []) (hw : ∀ c ∈ w, plainChar c = true) :
    (srtParts (demoHead ++ w)).1
      = [([], ⟨['1'], "00:00:01,000".toList, "00:00:02,000".toList, w⟩,
          demoHead ++ w)]
    ∧ (translate_srt (totalBackend f) sd (demoHead ++ w) ()).2.2
      = some (demoHead ++ f w ++ ['\n', '\n'])
    ∧ srtParts (demoHead ++ w ++ ['\n']) = ([], demoHead ++ w ++ ['\n'])
    ∧ (translate_srt (totalBackend f) sd (demoHead ++ w ++ ['\n']) ()).2.2
      = some (demoHead ++ w ++ ['\n']) := by
  cases w with
  | nil => exact absurd rfl hne
  | cons a t =>
  have ha := hw a (List.mem_cons_self _ _)
  have hd : isDigitPy a = false := not_digit_of_plain ha
  have hs : isSpacePy a = false := not_space_of_plain ha
  have hwn : ∀ c ∈ a :: t, (c == '\n') = false :=
    fun c hc => ne_nl_of_not_space (not_space_of_plain (hw c hc))
  have hnonl : '\n' ∉ a :: t := by
    intro hm
    have := hwn '\n' hm
    simp at this
  set blk : SrtBlock :=
    ⟨['1'], "00:00:01,000".toList, "00:00:02,000".toList, a :: t⟩ with hblk
  have hm : matchBlockAux (demoHead ++ a :: t) = some (blk, []) := by
    rw [matchBlockAux_demoHead a t, afterTs2_nl _ _ _ a _ hs]
    show starLCapAux dotCls [] (textK _ _ _) (a :: t) = some (blk, [])
    rw [starL_text_end _ _ _ (a :: t) [] hwn]
    simp [hblk]
  have hmb : matchBlock (demoHead ++ a :: t)
      = some (blk, (demoHead ++ a :: t).length) := by
    simp [matchBlock, hm]
  have hparts : srtParts (demoHead ++ a :: t)
      = ([([], blk, demoHead ++ a :: t)], []) := by
    show srtPartsAux ((demoHead ++ a :: t).length + 1) [] (demoHead ++ a :: t)
      = ([([], blk, demoHead ++ a :: t)], [])
    rw [srtPartsAux_succ]
    simp [hmb, List.take_length, List.drop_length, srtPartsAux_nil]
  have hblank : isBlankLine (a :: t) = false := by
    simp [isBlankLine, hs]
  have hpt : pureText f (a :: t) = f (a :: t) := by
    rw [pureText, splitNL_no_nl _ hnonl]
    simp [pureLine, hblank, joinNL]
  have hrender : ∀ x : Chars,
      renderBlock ['1'] ("00:00:01,000".toList) ("00:00:02,000".toList) x
        = demoHead ++ x ++ ['\n', '\n'] := fun x => rfl
  have hparts2 : srtParts (demoHead ++ (a :: t) ++ ['\n'])
      = ([], demoHead ++ (a :: t) ++ ['\n']) := by
    show srtPartsAux ((demoHead ++ (a :: t) ++ ['\n']).length + 1) []
        (demoHead ++ (a :: t) ++ ['\n'])
      = ([], demoHead ++ (a :: t) ++ ['\n'])
    rw [srtPartsAux_nomatch _ _ _ (noMatch_trailing a t hw)]
    simp
  refine ⟨by rw [hparts], ?_, hparts2, ?_⟩
  · obtain ⟨log, htp⟩ :=
      translateParts_total f sd [([], blk, demoHead ++ a :: t)] []
    simp only [translate_srt, hparts]
    rw [htp]
    simp [pureJoin, hblk, hpt]
    exact hrender (f (a :: t))
  · simp only [translate_srt, hparts2]
    simp [translateParts]

/-- Witness for claim C10 at a concrete two-letter caption line. -/
theorem c10_final_newline_witness :
    (srtParts (demoHead ++ ['H', 'i'])).1
      = [([], ⟨['1'], "00:00:01,000".toList, "00:00:02,000".toList, ['H', 'i']⟩,
          demoHead ++ ['H', 'i'])]
    ∧ (translate_srt (totalBackend (fun _ => "XY".toList)) 400
        (demoHead ++ ['H', 'i']) ()).2.2
      = some (demoHead ++ (fun _ => "XY".toList) ['H', 'i'] ++ ['\n', '\n'])
    ∧ srtParts (demoHead ++ ['H', 'i'] ++ ['\n'])
      = ([], demoHead ++ ['H', 'i'] ++ ['\n'])
    ∧ (translate_srt (totalBackend (fun _ => "XY".toList)) 400
        (demoHead ++ ['H', 'i'] ++ ['\n']) ()).2.2
      = some (demoHead ++ ['H', 'i'] ++ ['\n']) :=
  c10_final_newline ['H', 'i'] (fun _ => "XY".toList) 400 (by decide) (by decide)

end SrtBridge
